import Mathlib

/-!
Shallow embedding of the fixed-arena allocator in
`src/FreeRTOS/portable/MemMang/heap_2.c` (a FreeRTOS heap_2 variant with an
optional adjacent-block merge pass controlled by the global flag
`if_merge_mem`).

Modelling conventions:
* `size_t` values are natural numbers reduced modulo `WORD = 2 ^ 32`
  (the target is a 32-bit STM32 part); every arithmetic step of the C code
  that can wrap is written with an explicit `% WORD` (`wordAdd`, `wordSub`).
* A block header is a pair of its start address and its recorded size
  (`xBlockSize`, header-inclusive).  The free list is the sequence of real
  free blocks between the `xStart` and `xEnd` sentinels, in list order; the
  sentinels themselves are kept implicit (the zero-size head is never
  compared, and the tail has size `configADJUSTED_HEAP_SIZE`, at least as
  large as every real block in any state the program can build, so the
  sorted-position scan of the C code is the scan over the real blocks with
  insertion at the end when every real block is smaller).
* The allocator's configuration is passed as parameters: `hs` is
  `heapSTRUCT_SIZE`, `align` is `portBYTE_ALIGNMENT` (mask `align - 1`),
  `U` is `configADJUSTED_HEAP_SIZE` (the usable arena size), `A0` is the
  aligned start address of the heap, and `merge` is the `if_merge_mem`
  flag.
* The heap state also carries the list of currently allocated blocks with
  the header contents `pvPortMalloc` last wrote for them, which in the C
  code live in the arena's memory itself; `vPortFree` of a block reads the
  header the allocator wrote, exactly as the C code reads
  `pxLink->xBlockSize` from memory.
-/

namespace Heap2

/-- Machine word modulus for `size_t` on the 32-bit target. -/
def WORD : Nat := 2 ^ 32

/-- `size_t` addition (wraps modulo the word size). -/
def wordAdd (a b : Nat) : Nat := (a + b) % WORD

/-- `size_t` subtraction (wraps modulo the word size). -/
def wordSub (a b : Nat) : Nat := (a + (WORD - b % WORD)) % WORD

/-- A block header: start address of the block and its recorded size
(`xBlockSize`, which includes the header itself). -/
structure Block where
  addr : Nat
  size : Nat
deriving DecidableEq

/-- The sorted-position insertion of `prvInsertBlockIntoFreeList`
(lines 149-158): advance past every node whose size is strictly less than
the block's size and link the block in before the first node whose size is
greater than or equal to it (before `xEnd` when every real node is
smaller). -/
def sortedInsert (b : Block) : List Block → List Block
  | [] => [b]
  | c :: rest =>
    if c.size < b.size then c :: sortedInsert b rest else b :: c :: rest

/-- The merge scan of `prvInsertBlockIntoFreeList` (lines 109-146).
`s`, `e` and `xB` are the C locals `xStartAddress`, `xEndAddress` and
`xBlockSize`, all computed once before the loop and never updated inside
it.  `ptr` is the block `pxBlockPtr` currently points at and `orig` is the
value the size field of the originally inserted header holds in memory
(the header that `vPortFree`'s `pxLink` still points at); a write through
`pxBlockPtr` lands in that header exactly when `pxBlockPtr`'s address is
the original start address `s`.  Returns the remaining list (merged
neighbors unlinked), the final `pxBlockPtr` block, and the final size
stored in the original header. -/
def mergeScan (s e xB : Nat) : List Block → Block → Nat → List Block × Block × Nat
  | [], ptr, orig => ([], ptr, orig)
  | cur :: rest, ptr, orig =>
    if s ≠ wordAdd cur.addr cur.size ∧ e ≠ cur.addr then
      -- not adjacent: keep the node and continue
      ((cur :: (mergeScan s e xB rest ptr orig).1), (mergeScan s e xB rest ptr orig).2)
    else if s = wordAdd cur.addr cur.size then
      -- the inserted block starts right after cur: pxBlockPtr = pxCurBlock;
      -- pxBlockPtr->xBlockSize += xBlockSize (xB is the ORIGINAL size)
      mergeScan s e xB rest ⟨cur.addr, wordAdd cur.size xB⟩
        (if cur.addr = s then wordAdd cur.size xB else orig)
    else
      -- cur starts right at the inserted block's end:
      -- pxBlockPtr->xBlockSize += xCurBlockSize
      mergeScan s e xB rest ⟨ptr.addr, wordAdd ptr.size cur.size⟩
        (if ptr.addr = s then wordAdd orig cur.size else orig)

/-- `prvInsertBlockIntoFreeList` (lines 102-159): optional merge pass, then
sorted insertion of the final `pxBlockPtr` block.  Returns the new free
list together with the size the originally inserted header holds
afterwards (which is what `vPortFree` reads back at line 281). -/
def prvInsertBlockIntoFreeList (merge : Bool) (fl : List Block) (b : Block) :
    List Block × Nat :=
  if merge then
    (sortedInsert (mergeScan b.addr (wordAdd b.addr b.size) b.size fl b b.size).2.1
       (mergeScan b.addr (wordAdd b.addr b.size) b.size fl b b.size).1,
     (mergeScan b.addr (wordAdd b.addr b.size) b.size fl b b.size).2.2)
  else
    (sortedInsert b fl, b.size)

/-- Allocator state: the free list (real blocks between the sentinels, in
list order), the `xFreeBytesRemaining` counter, the currently allocated
blocks with the header contents `pvPortMalloc` last wrote for them, and
the `xHeapHasBeenInitialised` flag. -/
structure HeapState where
  freeList : List Block
  freeBytes : Nat
  allocated : List Block
  initialized : Bool
deriving DecidableEq

/-- The size adjustment of `pvPortMalloc` (lines 184-194): for a positive
request add `heapSTRUCT_SIZE`, then round up to the next multiple of the
alignment using the mask `align - 1`; each addition wraps as `size_t`
does. -/
def adjustSize (hs align r : Nat) : Nat :=
  if 0 < r then
    if wordAdd r hs &&& (align - 1) ≠ 0 then
      wordAdd (wordAdd r hs) (align - (wordAdd r hs &&& (align - 1)))
    else wordAdd r hs
  else r

/-- The free-list scan of `pvPortMalloc` (lines 200-209): walk from the
smallest block to the first block whose size is at least the adjusted
request; reaching the tail sentinel (here: the end of the list of real
blocks) is failure.  Returns the chosen block and the list with it
detached. -/
def findFit (w : Nat) : List Block → Option (Block × List Block)
  | [] => none
  | b :: rest =>
    if w ≤ b.size then some (b, rest)
    else
      match findFit w rest with
      | none => none
      | some (c, l) => some (c, b :: l)

/-- `prvHeapInit` (lines 301-323): installs the single initial free block
spanning the usable arena.  It does not touch `xFreeBytesRemaining` (that
counter is statically initialised to `configADJUSTED_HEAP_SIZE`). -/
def prvHeapInit (U A0 : Nat) (st : HeapState) : HeapState :=
  { st with freeList := [⟨A0, U⟩], initialized := true }

/-- The body of `pvPortMalloc` after lazy initialisation (lines 184-238):
adjust the size, check `0 < w ∧ w < configADJUSTED_HEAP_SIZE`, scan for a
fit, detach the block, split it when the leftover exceeds
`heapMINIMUM_BLOCK_SIZE = 2 * heapSTRUCT_SIZE` (inserting the remainder
through `prvInsertBlockIntoFreeList`), and decrement the counter by
`pxBlock->xBlockSize` as it stands at line 236 (the post-split size).
`findFit` guarantees `w ≤ b.size`, so the natural subtraction
`b.size - w` agrees with the C `size_t` subtraction at lines 220/229. -/
def mallocCore (hs align U : Nat) (merge : Bool) (st : HeapState) (r : Nat) :
    Option Block × HeapState :=
  if 0 < adjustSize hs align r ∧ adjustSize hs align r < U then
    match findFit (adjustSize hs align r) st.freeList with
    | none => (none, st)
    | some (b, rest) =>
      if 2 * hs < b.size - adjustSize hs align r then
        (some ⟨b.addr, adjustSize hs align r⟩,
          { st with
            freeList :=
              (prvInsertBlockIntoFreeList merge rest
                ⟨wordAdd b.addr (adjustSize hs align r),
                 b.size - adjustSize hs align r⟩).1,
            freeBytes := wordSub st.freeBytes (adjustSize hs align r),
            allocated := ⟨b.addr, adjustSize hs align r⟩ :: st.allocated })
      else
        (some b,
          { st with
            freeList := rest,
            freeBytes := wordSub st.freeBytes b.size,
            allocated := b :: st.allocated })
  else (none, st)

/-- `pvPortMalloc` (lines 163-259): lazy one-time initialisation, then the
allocation body.  The result is the chosen block's header (the C function
returns the address `block.addr + heapSTRUCT_SIZE`, the first payload
byte) or `none` for the `NULL` failure sentinel. -/
def pvPortMalloc (hs align U A0 : Nat) (merge : Bool) (st : HeapState) (r : Nat) :
    Option Block × HeapState :=
  mallocCore hs align U merge (if st.initialized then st else prvHeapInit U A0 st) r

/-- `vPortFree` (lines 262-286) applied to a non-null pointer: recover the
header, insert it through `prvInsertBlockIntoFreeList`, and only then add
`pxLink->xBlockSize` — the size the original header holds after the merge
pass — to `xFreeBytesRemaining`. -/
def vPortFree (merge : Bool) (st : HeapState) (b : Block) : HeapState :=
  { st with
    freeList := (prvInsertBlockIntoFreeList merge st.freeList b).1,
    freeBytes := wordAdd st.freeBytes (prvInsertBlockIntoFreeList merge st.freeList b).2,
    allocated := st.allocated.erase b }

/-- `xPortGetFreeHeapSize` (lines 289-292). -/
def xPortGetFreeHeapSize (st : HeapState) : Nat := st.freeBytes

/-- One external operation on the allocator: an allocation request, or the
free of one of the blocks previously handed out. -/
inductive Op where
  | alloc (r : Nat)
  | free (b : Block)
deriving DecidableEq

/-- Apply one operation to the allocator state. -/
def applyOp (hs align U A0 : Nat) (merge : Bool) (st : HeapState) : Op → HeapState
  | .alloc r => (pvPortMalloc hs align U A0 merge st r).2
  | .free b => vPortFree merge st b

/-- The state at program start: heap not yet initialised, counter statically
set to the usable size. -/
def initialState (U : Nat) : HeapState := ⟨[], U, [], false⟩

/-- Run a sequence of operations from the fresh state. -/
def runOps (hs align U A0 : Nat) (merge : Bool) (ops : List Op) : HeapState :=
  ops.foldl (applyOp hs align U A0 merge) (initialState U)

/-- Header-inclusive total size of the currently allocated blocks. -/
def allocSum (st : HeapState) : Nat := (st.allocated.map Block.size).sum

/-- The free list is non-decreasing by block size. -/
def sortedBySize (l : List Block) : Prop :=
  l.Pairwise (fun a b => a.size ≤ b.size)

/-! ## Helper lemmas -/

/-- Every member of `sortedInsert b l` is `b` or a member of `l`. -/
theorem mem_of_mem_sortedInsert {x b : Block} :
    ∀ {l : List Block}, x ∈ sortedInsert b l → x = b ∨ x ∈ l := by
  intro l
  induction l with
  | nil =>
    intro h
    simp only [sortedInsert] at h
    exact Or.inl (List.mem_singleton.mp h)
  | cons c rest ih =>
    intro h
    simp only [sortedInsert] at h
    split at h
    · rcases List.mem_cons.mp h with h1 | h2
      · exact Or.inr (h1 ▸ List.mem_cons_self c rest)
      · rcases ih h2 with h3 | h4
        · exact Or.inl h3
        · exact Or.inr (List.mem_cons_of_mem _ h4)
    · rcases List.mem_cons.mp h with h1 | h2
      · exact Or.inl h1
      · exact Or.inr h2

/-- Sorted insertion preserves the non-decreasing-by-size property. -/
theorem sortedBySize_sortedInsert (b : Block) :
    ∀ {l : List Block}, sortedBySize l → sortedBySize (sortedInsert b l) := by
  intro l
  induction l with
  | nil =>
    intro _
    simp only [sortedInsert]
    exact List.pairwise_singleton _ b
  | cons c rest ih =>
    intro h
    rw [sortedBySize, List.pairwise_cons] at h
    simp only [sortedInsert]
    split
    case isTrue hlt =>
      rw [sortedBySize, List.pairwise_cons]
      refine ⟨?_, ih h.2⟩
      intro x hx
      rcases mem_of_mem_sortedInsert hx with rfl | hx2
      · exact Nat.le_of_lt hlt
      · exact h.1 x hx2
    case isFalse hge =>
      rw [sortedBySize, List.pairwise_cons]
      refine ⟨?_, List.Pairwise.cons h.1 h.2⟩
      intro x hx
      rcases List.mem_cons.mp hx with rfl | hx2
      · exact Nat.le_of_not_lt hge
      · exact Nat.le_trans (Nat.le_of_not_lt hge) (h.1 x hx2)

/-- The list left over by the merge scan is a sublist of the input list. -/
theorem mergeScan_sublist (s e xB : Nat) :
    ∀ (l : List Block) (p : Block) (o : Nat),
      List.Sublist (mergeScan s e xB l p o).1 l := by
  intro l
  induction l with
  | nil =>
    intro p o
    simp only [mergeScan]
    exact List.Sublist.refl []
  | cons c rest ih =>
    intro p o
    simp only [mergeScan]
    split
    · exact List.Sublist.cons₂ c (ih p o)
    · split
      · exact List.Sublist.cons c (ih _ _)
      · exact List.Sublist.cons c (ih _ _)

/-- The residual list returned by `findFit` is a sublist of the input. -/
theorem findFit_sublist {w : Nat} :
    ∀ {l : List Block} {b : Block} {rest : List Block},
      findFit w l = some (b, rest) → List.Sublist rest l := by
  intro l
  induction l with
  | nil =>
    intro b rest h
    simp only [findFit] at h
    exact Option.noConfusion h
  | cons c cs ih =>
    intro b rest h
    simp only [findFit] at h
    split at h
    · cases h
      exact List.Sublist.cons c (List.Sublist.refl cs)
    · cases hf : findFit w cs with
      | none => rw [hf] at h; exact Option.noConfusion h
      | some p =>
        obtain ⟨d, l2⟩ := p
        rw [hf] at h
        cases h
        exact List.Sublist.cons₂ c (ih hf)

/-- The block chosen by `findFit` is at least as large as the request. -/
theorem findFit_le {w : Nat} :
    ∀ {l : List Block} {b : Block} {rest : List Block},
      findFit w l = some (b, rest) → w ≤ b.size := by
  intro l
  induction l with
  | nil =>
    intro b rest h
    simp only [findFit] at h
    exact Option.noConfusion h
  | cons c cs ih =>
    intro b rest h
    simp only [findFit] at h
    split at h
    case isTrue hle =>
      cases h
      exact hle
    case isFalse =>
      cases hf : findFit w cs with
      | none => rw [hf] at h; exact Option.noConfusion h
      | some p =>
        obtain ⟨d, l2⟩ := p
        rw [hf] at h
        cases h
        exact ih hf

/-- Block insertion (with or without merging) preserves sortedness. -/
theorem sortedBySize_insertFree (merge : Bool) (b : Block) {fl : List Block}
    (h : sortedBySize fl) :
    sortedBySize (prvInsertBlockIntoFreeList merge fl b).1 := by
  simp only [prvInsertBlockIntoFreeList]
  split
  · exact sortedBySize_sortedInsert _
      (List.Pairwise.sublist (mergeScan_sublist _ _ _ fl b b.size) h)
  · exact sortedBySize_sortedInsert b h

/-- `mallocCore` fails without touching the state when the adjusted size
fails the bounds check. -/
theorem mallocCore_none_of_bad_size (hs align U : Nat) (merge : Bool) (st : HeapState)
    (r : Nat) (h : ¬(0 < adjustSize hs align r ∧ adjustSize hs align r < U)) :
    mallocCore hs align U merge st r = (none, st) := by
  simp only [mallocCore]
  rw [if_neg h]

/-- `mallocCore` fails without touching the state when no free block is
large enough. -/
theorem mallocCore_none_of_no_fit (hs align U : Nat) (merge : Bool) (st : HeapState)
    (r : Nat) (hf : findFit (adjustSize hs align r) st.freeList = none) :
    mallocCore hs align U merge st r = (none, st) := by
  simp only [mallocCore]
  split
  · rw [hf]
  · rfl

/-- Behaviour of `mallocCore` when the bounds check passes and a block is
found: split when the leftover exceeds `heapMINIMUM_BLOCK_SIZE`, otherwise
hand the whole block out. -/
theorem mallocCore_of_fit (hs align U : Nat) (merge : Bool) (st : HeapState) (r : Nat)
    {b : Block} {rest : List Block}
    (hcond : 0 < adjustSize hs align r ∧ adjustSize hs align r < U)
    (hf : findFit (adjustSize hs align r) st.freeList = some (b, rest)) :
    mallocCore hs align U merge st r =
      if 2 * hs < b.size - adjustSize hs align r then
        (some ⟨b.addr, adjustSize hs align r⟩,
          { st with
            freeList :=
              (prvInsertBlockIntoFreeList merge rest
                ⟨wordAdd b.addr (adjustSize hs align r),
                 b.size - adjustSize hs align r⟩).1,
            freeBytes := wordSub st.freeBytes (adjustSize hs align r),
            allocated := ⟨b.addr, adjustSize hs align r⟩ :: st.allocated })
      else
        (some b,
          { st with
            freeList := rest,
            freeBytes := wordSub st.freeBytes b.size,
            allocated := b :: st.allocated }) := by
  simp only [mallocCore]
  rw [if_pos hcond, hf]

/-- On an initialised heap `pvPortMalloc` is just the allocation body. -/
theorem pvPortMalloc_initialized (hs align U A0 : Nat) (merge : Bool) (st : HeapState)
    (r : Nat) (h : st.initialized = true) :
    pvPortMalloc hs align U A0 merge st r = mallocCore hs align U merge st r := by
  simp only [pvPortMalloc, h, if_true]

/-- `mallocCore` preserves sortedness of the free list. -/
theorem sortedBySize_mallocCore (hs align U : Nat) (merge : Bool) (st : HeapState)
    (r : Nat) (h : sortedBySize st.freeList) :
    sortedBySize ((mallocCore hs align U merge st r).2).freeList := by
  by_cases hcond : 0 < adjustSize hs align r ∧ adjustSize hs align r < U
  · cases hf : findFit (adjustSize hs align r) st.freeList with
    | none => rw [mallocCore_none_of_no_fit hs align U merge st r hf]; exact h
    | some p =>
      obtain ⟨b, rest⟩ := p
      have hrest : sortedBySize rest := List.Pairwise.sublist (findFit_sublist hf) h
      rw [mallocCore_of_fit hs align U merge st r hcond hf]
      split
      · exact sortedBySize_insertFree merge _ hrest
      · exact hrest
  · rw [mallocCore_none_of_bad_size hs align U merge st r hcond]; exact h

/-- Both external operations preserve sortedness of the free list. -/
theorem sortedBySize_applyOp (hs align U A0 : Nat) (merge : Bool) (st : HeapState)
    (op : Op) (h : sortedBySize st.freeList) :
    sortedBySize (applyOp hs align U A0 merge st op).freeList := by
  cases op with
  | alloc r =>
    simp only [applyOp, pvPortMalloc]
    apply sortedBySize_mallocCore
    cases hinit : st.initialized with
    | true => simpa using h
    | false => simp [prvHeapInit, sortedBySize]
  | free b =>
    simp only [applyOp, vPortFree]
    exact sortedBySize_insertFree merge b h

/-- Folding any operation sequence preserves sortedness. -/
theorem sortedBySize_foldl (hs align U A0 : Nat) (merge : Bool) :
    ∀ (ops : List Op) (st : HeapState), sortedBySize st.freeList →
      sortedBySize (ops.foldl (applyOp hs align U A0 merge) st).freeList := by
  intro ops
  induction ops with
  | nil => intro st h; exact h
  | cons op rest ih =>
    intro st h
    exact ih _ (sortedBySize_applyOp hs align U A0 merge st op h)

/-- When the header-plus-alignment adjustment cannot wrap the word, the
adjusted size is at least `r + hs` (given that it came out positive). -/
theorem adjustSize_ge (hs align r : Nat) (ha : 0 < align)
    (hno : r + hs + align ≤ WORD) (hr : 0 < r)
    (hpos : 0 < adjustSize hs align r) :
    r + hs ≤ adjustSize hs align r := by
  have hlt : r + hs < WORD := Nat.lt_of_lt_of_le (Nat.lt_add_of_pos_right ha) hno
  have hw0 : wordAdd r hs = r + hs := by
    rw [wordAdd, Nat.mod_eq_of_lt hlt]
  rw [adjustSize, if_pos hr, hw0] at hpos ⊢
  by_cases hx : (r + hs) &&& (align - 1) ≠ 0
  · rw [if_pos hx] at hpos ⊢
    have hle2 : r + hs + (align - ((r + hs) &&& (align - 1))) ≤ WORD :=
      Nat.le_trans (Nat.add_le_add_left (Nat.sub_le _ _) _) hno
    rcases Nat.lt_or_ge (r + hs + (align - ((r + hs) &&& (align - 1)))) WORD with h2 | h2
    · rw [wordAdd, Nat.mod_eq_of_lt h2]
      exact Nat.le_add_right _ _
    · have heq : r + hs + (align - ((r + hs) &&& (align - 1))) = WORD :=
        Nat.le_antisymm hle2 h2
      rw [wordAdd, heq, Nat.mod_self] at hpos
      exact absurd hpos (Nat.lt_irrefl 0)
  · rw [if_neg hx]

/-! ## Claim theorems -/

/-- Claim C1 (code_bug evaluation): the conservation invariant fails on the
code.  With merging enabled, from a fresh arena with usable size 1024
(header size 8, alignment 8), `allocate(100)` followed by freeing the
returned block leaves no allocated blocks but a free-bytes counter of
1936, not the usable size 1024: `vPortFree` adds `pxLink->xBlockSize` as
it stands after the merge pass, which has already absorbed the adjacent
free remainder block. -/
theorem conservation_invariant_violated :
    (runOps 8 8 1024 0 true [Op.alloc 100, Op.free ⟨0, 112⟩]).freeBytes = 1936 ∧
    allocSum (runOps 8 8 1024 0 true [Op.alloc 100, Op.free ⟨0, 112⟩]) = 0 ∧
    (1936 : Nat) ≠ 1024 - 0 := by
  decide

/-- Claim C2 (code_bug evaluation): with merging enabled and both an
address-adjacent predecessor and successor present in the free list, the
merged result depends on their order in the size-ordered list.  Inserting
the block at address 32 of size 32 into the list holding its right
neighbor (address 64, size 16) before its left neighbor (address 0, size
32) unlinks both neighbors but produces a block of size 64, not
32 + 32 + 16 = 80: the scan's start/end/size snapshot is never updated, so
the right neighbor's 16 bytes are lost. -/
theorem merge_right_then_left_loses_bytes :
    prvInsertBlockIntoFreeList true [⟨64, 16⟩, ⟨0, 32⟩, ⟨192, 832⟩] ⟨32, 32⟩ =
      ([⟨0, 64⟩, ⟨192, 832⟩], 48) ∧ (64 : Nat) ≠ 32 + 32 + 16 := by
  decide

/-- Claim C3 (code_bug evaluation): with merging enabled, from a fresh
arena of usable size 1024 (header size 8, alignment 8), `allocate(200)`
followed immediately by `free` on the result does restore a single free
block spanning the whole arena, but the free-bytes counter becomes 1840,
not 1024: the freed block's header size is read back after the merge pass
absorbed the 816-byte remainder, so those bytes are counted twice. -/
theorem round_trip_counter_not_restored :
    (runOps 8 8 1024 0 true [Op.alloc 200, Op.free ⟨0, 208⟩]).freeList = [⟨0, 1024⟩] ∧
    (runOps 8 8 1024 0 true [Op.alloc 200, Op.free ⟨0, 208⟩]).freeBytes = 1840 ∧
    (1840 : Nat) ≠ 1024 := by
  decide

/-- Claim C4 (counterexample): on a fresh arena of usable size 1024 (header
size 8, alignment 8), `allocate(100)` splits the 1024-byte block; the
counter drops to 912 = 1024 - 112, i.e. by the rounded request 112, not by
the chosen block's pre-split size 1024 (which would leave 1024 - 1024 =
0). -/
theorem counter_decrement_not_presplit_cex :
    (runOps 8 8 1024 0 true [Op.alloc 100]).freeBytes = 912 ∧
    (912 : Nat) ≠ 1024 - 1024 := by
  decide

/-- Claim C4 (amended): for every successful allocation the free-bytes
counter is decremented by the handed-out block's size as recorded at the
moment of the decrement: the rounded request when the block is split, the
chosen block's full size when it is handed out unsplit. -/
theorem counter_decrement_postsplit (hs align U A0 : Nat) (merge : Bool)
    (st : HeapState) (r : Nat) (b : Block) (rest : List Block)
    (hinit : st.initialized = true)
    (hcond : 0 < adjustSize hs align r ∧ adjustSize hs align r < U)
    (hf : findFit (adjustSize hs align r) st.freeList = some (b, rest)) :
    (pvPortMalloc hs align U A0 merge st r).2.freeBytes =
      wordSub st.freeBytes
        (if 2 * hs < b.size - adjustSize hs align r then adjustSize hs align r
         else b.size) := by
  rw [pvPortMalloc_initialized hs align U A0 merge st r hinit,
    mallocCore_of_fit hs align U merge st r hcond hf]
  by_cases hsplit : 2 * hs < b.size - adjustSize hs align r
  · rw [if_pos hsplit, if_pos hsplit]
  · rw [if_neg hsplit, if_neg hsplit]

/-- Claim C4 (witness): concrete instance of the amended decrement rule at
a splitting allocation. -/
theorem counter_decrement_postsplit_witness :
    (pvPortMalloc 8 8 1024 0 true ⟨[⟨0, 1024⟩], 1024, [], true⟩ 100).2.freeBytes =
      wordSub 1024
        (if 2 * 8 < 1024 - adjustSize 8 8 100 then adjustSize 8 8 100 else 1024) :=
  counter_decrement_postsplit 8 8 1024 0 true ⟨[⟨0, 1024⟩], 1024, [], true⟩ 100
    ⟨0, 1024⟩ [] rfl (by decide) (by decide)

/-- Claim C5 (counterexample): from a fresh arena of usable size 1024
(header size 8, alignment 8) the very first call `allocate(1024 - 8)`
already fails: the adjusted size is exactly 1024, which is not strictly
less than the usable size, so the bounds check rejects it. -/
theorem exhaustion_first_call_fails_cex :
    (pvPortMalloc 8 8 1024 0 true (initialState 1024) (1024 - 8)).1 = none := by
  decide

/-- Claim C5 (amended): on an initialised heap, `allocate(U - hs)` fails
and leaves the state untouched on every call — first included — because
the adjusted size is at least the usable arena size `U` (or wraps to 0),
so the strict bounds check `w < U` can never pass. -/
theorem alloc_usable_minus_header_always_fails (hs align U A0 : Nat) (merge : Bool)
    (st : HeapState) (hinit : st.initialized = true) (ha : 0 < align)
    (hU : U + align ≤ WORD) :
    pvPortMalloc hs align U A0 merge st (U - hs) = (none, st) := by
  have hUW : U < WORD := Nat.lt_of_lt_of_le (Nat.lt_add_of_pos_right ha) hU
  have hkey : ¬(0 < adjustSize hs align (U - hs) ∧ adjustSize hs align (U - hs) < U) := by
    rcases Nat.le_total U hs with hle | hge
    · have hz : U - hs = 0 := Nat.sub_eq_zero_of_le hle
      rw [hz, adjustSize, if_neg (Nat.lt_irrefl 0)]
      intro hc
      exact absurd hc.1 (Nat.lt_irrefl 0)
    · rcases Nat.eq_or_lt_of_le hge with heq | hlt
      · have hz : U - hs = 0 := by rw [← heq, Nat.sub_self]
        rw [hz, adjustSize, if_neg (Nat.lt_irrefl 0)]
        intro hc
        exact absurd hc.1 (Nat.lt_irrefl 0)
      · have hr : 0 < U - hs := Nat.sub_pos_of_lt hlt
        have hw0 : wordAdd (U - hs) hs = U := by
          rw [wordAdd, Nat.sub_add_cancel (Nat.le_of_lt hlt), Nat.mod_eq_of_lt hUW]
        rw [adjustSize, if_pos hr, hw0]
        by_cases hx : U &&& (align - 1) ≠ 0
        · rw [if_pos hx]
          have hle2 : U + (align - (U &&& (align - 1))) ≤ WORD :=
            Nat.le_trans (Nat.add_le_add_left (Nat.sub_le _ _) _) hU
          rcases Nat.lt_or_ge (U + (align - (U &&& (align - 1)))) WORD with h2 | h2
          · rw [wordAdd, Nat.mod_eq_of_lt h2]
            intro hc
            exact absurd hc.2 (Nat.not_lt.mpr (Nat.le_add_right U _))
          · have heq2 : U + (align - (U &&& (align - 1))) = WORD :=
              Nat.le_antisymm hle2 h2
            rw [wordAdd, heq2, Nat.mod_self]
            intro hc
            exact absurd hc.1 (Nat.lt_irrefl 0)
        · rw [if_neg hx]
          intro hc
          exact absurd hc.2 (Nat.lt_irrefl U)
  rw [pvPortMalloc_initialized hs align U A0 merge st (U - hs) hinit]
  exact mallocCore_none_of_bad_size hs align U merge st (U - hs) hkey

/-- Claim C5 (witness): concrete instance of the amended exhaustion
behaviour on an initialised heap. -/
theorem alloc_usable_minus_header_always_fails_witness :
    pvPortMalloc 8 8 1024 0 true ⟨[⟨0, 1024⟩], 1024, [], true⟩ (1024 - 8) =
      (none, ⟨[⟨0, 1024⟩], 1024, [], true⟩) :=
  alloc_usable_minus_header_always_fails 8 8 1024 0 true
    ⟨[⟨0, 1024⟩], 1024, [], true⟩ rfl (by decide) (by decide)

/-- Claim C6 (counterexample): the header-overhead addition wraps around
the `size_t` width.  On an initialised heap of usable size 1024 (header
size 8, alignment 8) a request for 4294967289 = 2^32 - 7 bytes succeeds:
the adjusted size wraps to 8, and the handed-out block of recorded size 8
has 8 - 8 = 0 payload bytes, far fewer than requested. -/
theorem overflow_wrap_small_region_cex :
    (pvPortMalloc 8 8 1024 0 true ⟨[⟨0, 1024⟩], 1024, [], true⟩ 4294967289).1 =
      some ⟨0, 8⟩ ∧ 8 - 8 < 4294967289 := by
  decide

/-- Claim C6 (amended): whenever the request plus header overhead plus
alignment slack cannot exceed the `size_t` range, a successful allocation
hands out a block whose recorded size covers the request plus its header,
i.e. at least the requested number of payload bytes. -/
theorem alloc_payload_ge_request_no_overflow (hs align U A0 : Nat) (merge : Bool)
    (st : HeapState) (r : Nat) (a : Block) (st2 : HeapState)
    (ha : 0 < align) (hno : r + hs + align ≤ WORD)
    (hsucc : pvPortMalloc hs align U A0 merge st r = (some a, st2)) :
    r + hs ≤ a.size := by
  rw [pvPortMalloc] at hsucc
  by_cases hcond : 0 < adjustSize hs align r ∧ adjustSize hs align r < U
  · cases hf : findFit (adjustSize hs align r)
        (if st.initialized then st else prvHeapInit U A0 st).freeList with
    | none =>
      rw [mallocCore_none_of_no_fit hs align U merge _ r hf] at hsucc
      exact Option.noConfusion (congrArg Prod.fst hsucc)
    | some p =>
      obtain ⟨b, rest⟩ := p
      rw [mallocCore_of_fit hs align U merge _ r hcond hf] at hsucc
      have hr : 0 < r := by
        rcases Nat.eq_zero_or_pos r with h0 | h0
        · rw [h0] at hcond
          rw [adjustSize, if_neg (Nat.lt_irrefl 0)] at hcond
          exact absurd hcond.1 (Nat.lt_irrefl 0)
        · exact h0
      have hwge : r + hs ≤ adjustSize hs align r :=
        adjustSize_ge hs align r ha hno hr hcond.1
      split at hsucc
      · have hax : a = ⟨b.addr, adjustSize hs align r⟩ :=
          (Option.some.inj (congrArg Prod.fst hsucc)).symm
        rw [hax]
        exact hwge
      · have hax : a = b := (Option.some.inj (congrArg Prod.fst hsucc)).symm
        rw [hax]
        exact Nat.le_trans hwge (findFit_le hf)
  · rw [mallocCore_none_of_bad_size hs align U merge _ r hcond] at hsucc
    exact Option.noConfusion (congrArg Prod.fst hsucc)

/-- Claim C6 (witness): concrete instance of the amended payload guarantee
at a non-wrapping request. -/
theorem alloc_payload_ge_request_witness : 100 + 8 ≤ (112 : Nat) :=
  alloc_payload_ge_request_no_overflow 8 8 1024 0 true
    ⟨[⟨0, 1024⟩], 1024, [], true⟩ 100 ⟨0, 112⟩
    ⟨[⟨112, 912⟩], 912, [⟨0, 112⟩], true⟩ (by decide) (by decide) (by decide)

/-- Claim C7: a successful allocation splits the chosen block exactly when
the chosen block's size minus the rounded request exceeds twice the header
overhead (the minimum block size).  Above the threshold the allocated
block has exactly the rounded size and the remainder block — starting
right after the handed-out bytes, of size equal to the difference — is
handed to the insertion engine; at or below the threshold the whole block
is handed out and the free list is exactly the scan residue, with no new
free block created. -/
theorem split_iff_threshold (hs align U A0 : Nat) (merge : Bool) (st : HeapState)
    (r : Nat) (b : Block) (rest : List Block)
    (hinit : st.initialized = true)
    (hcond : 0 < adjustSize hs align r ∧ adjustSize hs align r < U)
    (hf : findFit (adjustSize hs align r) st.freeList = some (b, rest)) :
    (2 * hs < b.size - adjustSize hs align r →
      (pvPortMalloc hs align U A0 merge st r).1 =
        some ⟨b.addr, adjustSize hs align r⟩ ∧
      (pvPortMalloc hs align U A0 merge st r).2.freeList =
        (prvInsertBlockIntoFreeList merge rest
          ⟨wordAdd b.addr (adjustSize hs align r),
           b.size - adjustSize hs align r⟩).1) ∧
    (b.size - adjustSize hs align r ≤ 2 * hs →
      (pvPortMalloc hs align U A0 merge st r).1 = some b ∧
      (pvPortMalloc hs align U A0 merge st r).2.freeList = rest) := by
  rw [pvPortMalloc_initialized hs align U A0 merge st r hinit,
    mallocCore_of_fit hs align U merge st r hcond hf]
  constructor
  · intro hsplit
    rw [if_pos hsplit]
    exact ⟨rfl, rfl⟩
  · intro hnosplit
    rw [if_neg (Nat.not_lt.mpr hnosplit)]
    exact ⟨rfl, rfl⟩

/-- Claim C7 (witness): concrete instance at a splitting allocation —
`allocate(100)` on the fresh 1024-byte arena rounds to 112, splits the
single block, and hands the 912-byte remainder to the insertion engine. -/
theorem split_iff_threshold_witness :
    (pvPortMalloc 8 8 1024 0 true ⟨[⟨0, 1024⟩], 1024, [], true⟩ 100).1 =
      some ⟨0, 112⟩ ∧
    (pvPortMalloc 8 8 1024 0 true ⟨[⟨0, 1024⟩], 1024, [], true⟩ 100).2.freeList =
      (prvInsertBlockIntoFreeList true [] ⟨112, 912⟩).1 :=
  (split_iff_threshold 8 8 1024 0 true ⟨[⟨0, 1024⟩], 1024, [], true⟩ 100
    ⟨0, 1024⟩ [] rfl (by decide) (by decide)).1 (by decide)

/-- Claim C8: after any sequence of allocate and free operations — with
either merge-flag setting — the free list read from the head sentinel to
the tail sentinel is non-decreasing by block size. -/
theorem free_list_sorted_after_ops (hs align U A0 : Nat) (merge : Bool)
    (ops : List Op) :
    sortedBySize (runOps hs align U A0 merge ops).freeList := by
  apply sortedBySize_foldl
  rw [initialState, sortedBySize]
  exact List.Pairwise.nil

/-- Claim C9: `allocate(0)` always returns the failure sentinel and never
changes the free-bytes counter, in every allocator state (even an
uninitialised one: lazy initialisation does not touch the counter). -/
theorem alloc_zero_fails_counter_unchanged (hs align U A0 : Nat) (merge : Bool)
    (st : HeapState) :
    (pvPortMalloc hs align U A0 merge st 0).1 = none ∧
    (pvPortMalloc hs align U A0 merge st 0).2.freeBytes = st.freeBytes := by
  have hz : adjustSize hs align 0 = 0 := by
    rw [adjustSize, if_neg (Nat.lt_irrefl 0)]
  have hbad : ¬(0 < adjustSize hs align 0 ∧ adjustSize hs align 0 < U) := by
    rw [hz]
    intro hc
    exact absurd hc.1 (Nat.lt_irrefl 0)
  rw [pvPortMalloc, mallocCore_none_of_bad_size hs align U merge _ 0 hbad]
  refine ⟨rfl, ?_⟩
  cases hinit : st.initialized with
  | true => simp
  | false => simp [prvHeapInit]

/-- Claim C10: on an already-initialised heap, every failing allocation —
whether the adjusted size fails the bounds check or no free block is large
enough — leaves the entire allocator state (free list and counter) exactly
as it was. -/
theorem alloc_failure_atomic (hs align U A0 : Nat) (merge : Bool) (st : HeapState)
    (r : Nat) (hinit : st.initialized = true)
    (hfail : (pvPortMalloc hs align U A0 merge st r).1 = none) :
    (pvPortMalloc hs align U A0 merge st r).2 = st := by
  rw [pvPortMalloc_initialized hs align U A0 merge st r hinit] at hfail ⊢
  by_cases hcond : 0 < adjustSize hs align r ∧ adjustSize hs align r < U
  · cases hf : findFit (adjustSize hs align r) st.freeList with
    | none => rw [mallocCore_none_of_no_fit hs align U merge st r hf]
    | some p =>
      obtain ⟨b, rest⟩ := p
      exfalso
      rw [mallocCore_of_fit hs align U merge st r hcond hf] at hfail
      split at hfail
      · exact Option.noConfusion hfail
      · exact Option.noConfusion hfail
  · rw [mallocCore_none_of_bad_size hs align U merge st r hcond]

/-- Claim C10 (witness): a concrete failing request (2000 adjusts past the
1024-byte usable size) leaves the initialised state untouched. -/
theorem alloc_failure_atomic_witness :
    (pvPortMalloc 8 8 1024 0 true ⟨[⟨0, 1024⟩], 1024, [], true⟩ 2000).2 =
      ⟨[⟨0, 1024⟩], 1024, [], true⟩ :=
  alloc_failure_atomic 8 8 1024 0 true ⟨[⟨0, 1024⟩], 1024, [], true⟩ 2000
    rfl (by decide)

end Heap2
